import Mathlib

/-!
Verification of the request-routing and lazy-initialization core of the
NestJS + Next.js monorepo.

The development embeds two pieces of the backend:

1. The request router installed in `apps/backend/src/main.ts`: an Express
   middleware that sends every request whose URL starts with the configured
   API prefix to the Nest dispatcher (by calling `next()`), and delegates
   every other request to the Next.js request handler, forwarding handler
   errors with `next(error)`.

2. The readiness gate `NextService` in
   `apps/backend/src/next/next.service.ts`: a lazily started, single-flight
   initialization of the Next.js server (`ensureReady` / `initializeNext`),
   with accessors `getRequestHandler` and `getNextServer` that throw until
   the internal `server` field is set.

The gate is stateful and asynchronous, so it is embedded as a small-step
state machine over an explicit JavaScript event loop: a FIFO microtask
queue, with external events (new `ensureReady` calls, settlement of the
`prepare()` call) firing only when the microtask queue is drained, exactly
as in Node.js.
-/

set_option autoImplicit false

namespace NestNext

/-! ### The request router of `apps/backend/src/main.ts`

The bootstrap code sets `const apiPrefix = 'api'` and installs, as the first
Express middleware:

```
server.use(async (req, res, next) => {
  if (req.url.startsWith(`/$\x7bapiPrefix\x7d`)) return next();
  try { await handle(req, res); } catch (error) { next(error); }
});
```

A request is identified by its URL string.  The renderer handler is an
arbitrary function from URLs to a success or an error (errors stand for a
rejected `handle(req, res)` promise); the middleware body is embedded as a
function producing the ordered list of observable actions it performs.
-/

/-- JavaScript `String.prototype.startsWith`: a plain prefix test on the
character sequence of the string (no path-segment semantics). -/
def jsStartsWith (s p : String) : Bool :=
  p.data.isPrefixOf s.data

/-- The configured API prefix segment, `const apiPrefix = 'api'` in
`main.ts`. -/
def apiSegment : String := "api"

/-- Observable actions of the routing middleware: `apiDispatch` is a call
of `next()` with no argument (continuing to the Nest router),
`rendererCall url` is an invocation `handle(req, res)` of the Next.js
handler, and `errorForward e` is a call `next(error)` forwarding a handler
failure to Express error handling. -/
inductive RouteEvent where
  | apiDispatch : RouteEvent
  | rendererCall : String → RouteEvent
  | errorForward : Nat → RouteEvent
deriving DecidableEq

/-- The middleware body from `main.ts`, as the trace of actions it performs
on one request with URL `url`, given the behaviour `handle` of the Next.js
request handler (`Except.error e` models a rejected handler promise). -/
def routeRequest (handle : String → Except Nat Unit) (url : String) :
    List RouteEvent :=
  if jsStartsWith url ("/" ++ apiSegment) then
    [RouteEvent.apiDispatch]
  else
    match handle url with
    | Except.ok _ => [RouteEvent.rendererCall url]
    | Except.error e => [RouteEvent.rendererCall url, RouteEvent.errorForward e]

/-! ### The Nest route table behind the middleware

`AppController` (with `app.setGlobalPrefix('api')` from `main.ts`) mounts
`@Get()` `getHello` at `/api` and `@Get('status')` `getStatus` at
`/api/status`. -/

/-- Responses produced by the API layer: a plain-text body, or the status
JSON object with fields `status`, `timestamp`, `message`, `service`. -/
inductive ApiResponse where
  | text : String → ApiResponse
  | statusJson : String → String → String → String → ApiResponse
deriving DecidableEq

/-- Modelled from the spec: `AppService.getHello` lives in `app.service.ts`,
which is not part of the repository snapshot; the spec says only that it
returns a plain-text greeting, so the greeting string is a parameter
(`greeting`).  The rest is the route table of `AppController` under the
global prefix `api`: `getHello` at `/api`, `getStatus` at `/api/status`
returning the literal object from the controller with the current ISO
timestamp (`now`); any other URL has no API route (`none`, a Nest 404). -/
def nestDispatch (greeting now url : String) : Option ApiResponse :=
  if url = "/" ++ apiSegment then
    some (ApiResponse.text greeting)
  else if url = "/" ++ apiSegment ++ "/status" then
    some (ApiResponse.statusJson "ok" now "NestJS API is running!"
      "NestJS + Next.js Monorepo")
  else
    none

/-- A renderer handler that always succeeds, used for concrete runs. -/
def okHandle : String → Except Nat Unit := fun _ => Except.ok ()

/-- A renderer handler that always rejects with error code `7`, used for
concrete runs. -/
def failHandle : String → Except Nat Unit := fun _ => Except.error 7

end NestNext

namespace NestNext

/-- C1: for every request, the middleware calls `next()` (API dispatch)
exactly when the URL starts with `/api`, and invokes the renderer handler
exactly when it does not; the two dispatch targets are mutually
exclusive. -/
theorem C1_router_classification (handle : String → Except Nat Unit)
    (url : String) :
    (RouteEvent.apiDispatch ∈ routeRequest handle url ↔
      jsStartsWith url ("/" ++ apiSegment) = true) ∧
    (RouteEvent.rendererCall url ∈ routeRequest handle url ↔
      jsStartsWith url ("/" ++ apiSegment) = false) := by
  unfold routeRequest
  by_cases h : jsStartsWith url ("/" ++ apiSegment) = true
  · simp [h]
  · simp only [Bool.not_eq_true] at h
    cases hh : handle url <;> simp [h]

/-- C2 counterexample: the URL `/api-docs` does start with the string
`/api`, so the middleware calls `next()` (API dispatch) and never invokes
the renderer handler, contradicting the claim that `/api-docs` is delegated
to the renderer. -/
theorem C2_counterexample :
    routeRequest okHandle "/api-docs" = [RouteEvent.apiDispatch] ∧
    RouteEvent.rendererCall "/api-docs" ∉ routeRequest okHandle "/api-docs" := by
  decide

/-- C2 amended: `/api-docs` starts with the string `/api`, so the router
classifies it as API (it calls `next()` and never invokes the renderer);
`/` and `/about` are delegated to the renderer and never reach the API
dispatch. -/
theorem C2_amended_routing (handle : String → Except Nat Unit) :
    routeRequest handle "/api-docs" = [RouteEvent.apiDispatch] ∧
    (RouteEvent.apiDispatch ∉ routeRequest handle "/" ∧
      RouteEvent.rendererCall "/" ∈ routeRequest handle "/") ∧
    (RouteEvent.apiDispatch ∉ routeRequest handle "/about" ∧
      RouteEvent.rendererCall "/about" ∈ routeRequest handle "/about") := by
  have h1 : jsStartsWith "/api-docs" ("/" ++ apiSegment) = true := by decide
  have h2 : jsStartsWith "/" ("/" ++ apiSegment) = false := by decide
  have h3 : jsStartsWith "/about" ("/" ++ apiSegment) = false := by decide
  refine ⟨?_, ?_, ?_⟩
  · simp [routeRequest, h1]
  · cases hh : handle "/" <;> simp [routeRequest, h2, hh]
  · cases hh : handle "/about" <;> simp [routeRequest, h3, hh]

/-- C8 counterexample: a request for `/` is delegated to the renderer
handler by the middleware and the API dispatch is never invoked for it,
contradicting the claim that `GET /` is handled by the API layer. -/
theorem C8_counterexample :
    RouteEvent.rendererCall "/" ∈ routeRequest okHandle "/" ∧
    RouteEvent.apiDispatch ∉ routeRequest okHandle "/" := by
  decide

/-- C8 amended: `GET /` is delegated to the renderer, not the API layer
(the URL `/` does not start with `/api`, and the Nest route table has no
route at `/` because of the global prefix); the plain-text greeting of
`getHello` is instead served at `/api`, which the middleware passes to the
Nest dispatch. -/
theorem C8_amended_root_goes_to_renderer (handle : String → Except Nat Unit)
    (greeting now : String) :
    (RouteEvent.rendererCall "/" ∈ routeRequest handle "/" ∧
      RouteEvent.apiDispatch ∉ routeRequest handle "/") ∧
    nestDispatch greeting now "/" = none ∧
    (RouteEvent.apiDispatch ∈ routeRequest handle "/api" ∧
      nestDispatch greeting now "/api" = some (ApiResponse.text greeting)) := by
  have h2 : jsStartsWith "/" ("/" ++ apiSegment) = false := by decide
  have h4 : jsStartsWith "/api" ("/" ++ apiSegment) = true := by decide
  have hroot : ("/" : String) ≠ "/" ++ apiSegment := by decide
  have hroot2 : ("/" : String) ≠ "/" ++ apiSegment ++ "/status" := by decide
  have h5 : ("/api" : String) = "/" ++ apiSegment := by decide
  refine ⟨?_, ?_, ?_, ?_⟩
  · cases hh : handle "/" <;> simp [routeRequest, h2, hh]
  · simp [nestDispatch, hroot, hroot2]
  · simp [routeRequest, h4]
  · simp [nestDispatch, h5]

/-- C9: when a request is classified as frontend and the renderer handler
rejects with error `e`, the middleware performs exactly the handler call
followed by `next(e)`: the error is forwarded to the Express error path,
not swallowed, and the middleware itself produces no other action (no raw
response, no crash). -/
theorem C9_renderer_error_forwarded (handle : String → Except Nat Unit)
    (url : String) (e : Nat)
    (hapi : jsStartsWith url ("/" ++ apiSegment) = false)
    (hfail : handle url = Except.error e) :
    routeRequest handle url =
      [RouteEvent.rendererCall url, RouteEvent.errorForward e] ∧
    RouteEvent.errorForward e ∈ routeRequest handle url := by
  unfold routeRequest
  simp [hapi, hfail]

/-- C9 witness: the renderer handler that always rejects with error `7`,
on the frontend URL `/about`, yields the handler call followed by the
forwarded error. -/
theorem C9_renderer_error_forwarded_witness :
    routeRequest failHandle "/about" =
      [RouteEvent.rendererCall "/about", RouteEvent.errorForward 7] ∧
    RouteEvent.errorForward 7 ∈ routeRequest failHandle "/about" :=
  C9_renderer_error_forwarded failHandle "/about" 7 (by decide) rfl

/-! ### The readiness gate `NextService`

`apps/backend/src/next/next.service.ts` is:

```
private server: any = null;
private readyPromise: Promise<void> | null = null;

async ensureReady() {
  if (!this.readyPromise) { this.readyPromise = this.initializeNext(); }
  try { await this.readyPromise; }
  catch (error) { this.readyPromise = null; throw error; }
}

private async initializeNext() {
  try {
    this.server = next(\x7b dev: ..., dir: frontendDir \x7d);
    if (this.server) { await this.server.prepare(); }
    else { throw new Error('Failed to initialize Next.js server'); }
  } catch (error) { this.server = null; throw error; }
}

getNextServer()      { if (!this.server) throw ...; return this.server; }
getRequestHandler()  { if (!this.server) throw ...; return this.server.getRequestHandler(); }
```

The service is embedded as a state machine over the Node.js event loop.
Initialization attempts (invocations of `initializeNext`) are numbered in
start order, and attempt number doubles as the identity of the `next(...)`
server instance the attempt creates.  The environment parameter `env`
fixes, for each attempt, how the external Next.js library behaves:
`ctorNull` makes `next(...)` return a falsy value (the guarded branch that
throws synchronously), `prepFail` makes `server.prepare()` reject, and
`prepOk` makes it resolve.

JavaScript semantics captured by the machine:

* the synchronous prologue of `ensureReady` (the null check, the assignment
  `readyPromise = initializeNext()`, and the body of `initializeNext` up to
  its first `await`, which assigns `this.server`) runs atomically;
* a continuation after an `await` is a microtask; when a promise settles,
  the reaction jobs of all its registered waiters are enqueued contiguously
  in registration order, and the FIFO microtask queue is drained before any
  external event (a new top-level `ensureReady` call, or the settlement of
  the I/O performed by `prepare()`) can run.
-/

/-- Behaviour of the external Next.js library for one attempt: `next(...)`
returns a falsy value, or `prepare()` rejects, or `prepare()` resolves. -/
inductive InitOutcome where
  | ctorNull : InitOutcome
  | prepFail : InitOutcome
  | prepOk : InitOutcome
deriving DecidableEq

/-- Lifecycle of one `initializeNext` attempt: `prepPending` while the
`prepare()` I/O is outstanding, `settling` once that I/O has finished but
the continuation of `initializeNext` (the microtask that settles the
attempt promise) has not yet run, then `resolved` or `rejected`. -/
inductive AStat where
  | prepPending : AStat
  | settling : AStat
  | resolved : AStat
  | rejected : AStat
deriving DecidableEq

/-- One attempt promise: its lifecycle status and the `ensureReady` calls
currently awaiting it (in registration order). -/
structure AttemptRec where
  status : AStat
  waiters : List Nat
deriving DecidableEq

/-- Microtasks: `initResume k` is the continuation of `initializeNext` for
attempt `k` after `prepare()` settled (it runs the `catch` block on
failure and settles the attempt promise); `waiterResume c ok` is the
continuation of `ensureReady` call `c` after the attempt promise it awaited
settled (`ok = false` runs the `catch` block that clears
`readyPromise`). -/
inductive Microtask where
  | initResume : Nat → Microtask
  | waiterResume : Nat → Bool → Microtask
deriving DecidableEq

/-- The process state: the two fields of `NextService` (`server`,
`readyPromise`, both holding attempt numbers), the attempt promises in
start order, the outcome of each `ensureReady` call (`none` while the call
is still awaiting), and the microtask queue. -/
structure GateState where
  server : Option Nat
  readyPromise : Option Nat
  attempts : List AttemptRec
  calls : List (Option Bool)
  queue : List Microtask
deriving DecidableEq

/-- Process start: both fields null, no attempts, no calls, empty queue. -/
def initState : GateState :=
  { server := none, readyPromise := none, attempts := [], calls := [], queue := [] }

/-- Scheduler events: `call` is a new top-level invocation of
`ensureReady` (from `onModuleInit`, `bootstrap`, or any later client);
`prepSettles k` is the completion of the `prepare()` I/O of attempt `k`;
`micro` processes the head of the microtask queue.  `call` and
`prepSettles` are macrotask-level events and are only enabled when the
microtask queue is drained. -/
inductive Ev where
  | call : Ev
  | prepSettles : Nat → Ev
  | micro : Ev
deriving DecidableEq

/-- One scheduler step; `none` when the event is not enabled in the given
state (so invalid schedules are rejected rather than skipped). -/
def step (env : Nat → InitOutcome) (s : GateState) : Ev → Option GateState
  | Ev.call =>
    if s.queue = [] then
      let c := s.calls.length
      let calls1 := s.calls ++ [none]
      match s.readyPromise with
      | some k =>
        match s.attempts[k]? with
        | none => none
        | some a =>
          match a.status with
          | AStat.prepPending =>
            some { s with
                    calls := calls1,
                    attempts := s.attempts.set k { a with waiters := a.waiters ++ [c] } }
          | AStat.settling =>
            some { s with
                    calls := calls1,
                    attempts := s.attempts.set k { a with waiters := a.waiters ++ [c] } }
          | AStat.resolved =>
            some { s with
                    calls := calls1,
                    queue := s.queue ++ [Microtask.waiterResume c true] }
          | AStat.rejected =>
            some { s with
                    calls := calls1,
                    queue := s.queue ++ [Microtask.waiterResume c false] }
      | none =>
        let k := s.attempts.length
        match env k with
        | InitOutcome.ctorNull =>
          some { s with
                  server := none, readyPromise := some k,
                  attempts := s.attempts ++ [{ status := AStat.rejected, waiters := [] }],
                  calls := calls1,
                  queue := s.queue ++ [Microtask.waiterResume c false] }
        | _ =>
          some { s with
                  server := some k, readyPromise := some k,
                  attempts := s.attempts ++ [{ status := AStat.prepPending, waiters := [c] }],
                  calls := calls1 }
    else none
  | Ev.prepSettles k =>
    if s.queue = [] then
      match s.attempts[k]? with
      | some a =>
        if a.status = AStat.prepPending then
          some { s with
                  attempts := s.attempts.set k { a with status := AStat.settling },
                  queue := [Microtask.initResume k] }
        else none
      | none => none
    else none
  | Ev.micro =>
    match s.queue with
    | [] => none
    | t :: rest =>
      match t with
      | Microtask.initResume k =>
        match s.attempts[k]? with
        | none => none
        | some a =>
          match env k with
          | InitOutcome.prepOk =>
            some { s with
                    attempts := s.attempts.set k { status := AStat.resolved, waiters := [] },
                    queue := rest ++ a.waiters.map (fun c => Microtask.waiterResume c true) }
          | _ =>
            some { s with
                    server := none,
                    attempts := s.attempts.set k { status := AStat.rejected, waiters := [] },
                    queue := rest ++ a.waiters.map (fun c => Microtask.waiterResume c false) }
      | Microtask.waiterResume c ok =>
        if ok then
          some { s with calls := s.calls.set c (some true), queue := rest }
        else
          some { s with
                  readyPromise := none,
                  calls := s.calls.set c (some false), queue := rest }

/-- Run a schedule of events from a state; `none` if any event is not
enabled where it occurs. -/
def run (env : Nat → InitOutcome) : GateState → List Ev → Option GateState
  | s, [] => some s
  | s, e :: evs =>
    match step env s e with
    | none => none
    | some s1 => run env s1 evs

/-- The error message thrown by both accessors of `NextService`. -/
def uninitializedMessage : String := "Next.js was not initialized yet"

/-- `NextService.getNextServer`: returns the raw server instance stored in
`this.server`, or throws if that field is null. -/
def getNextServer (s : GateState) : Except String Nat :=
  match s.server with
  | none => Except.error uninitializedMessage
  | some srv => Except.ok srv

/-- `NextService.getRequestHandler`: throws if `this.server` is null,
otherwise returns `this.server.getRequestHandler()`; the handler is
identified by the server instance it belongs to. -/
def getRequestHandler (s : GateState) : Except String Nat :=
  match s.server with
  | none => Except.error uninitializedMessage
  | some srv => Except.ok srv

/-- An attempt is in flight from the moment `initializeNext` starts running
until the microtask that settles its promise has run. -/
def AttemptRec.inFlight (a : AttemptRec) : Bool :=
  a.status == AStat.prepPending || a.status == AStat.settling

/-- Number of initialization attempts currently in flight. -/
def inFlightCount (s : GateState) : Nat :=
  s.attempts.countP (fun a => a.inFlight)

/-- Whether some attempt has ever completed successfully. -/
def succeededEver (s : GateState) : Bool :=
  s.attempts.any (fun a => a.status == AStat.resolved)

/-- Environment in which every `initializeNext` attempt succeeds. -/
def envAllOk : Nat → InitOutcome := fun _ => InitOutcome.prepOk

/-- Environment in which attempt 0 fails at `prepare()` and every later
attempt succeeds. -/
def envFailThenOk : Nat → InitOutcome :=
  fun k => if k = 0 then InitOutcome.prepFail else InitOutcome.prepOk

/-- The state reached from process start by one `ensureReady` call whose
attempt is still in flight: `initializeNext` has synchronously assigned
`server` and started `prepare()`, nothing has settled yet. -/
def sInFlight : GateState :=
  { server := some 0, readyPromise := some 0,
    attempts := [{ status := AStat.prepPending, waiters := [0] }],
    calls := [none], queue := [] }

end NestNext

namespace NestNext

/-- C4: in an environment where attempt 0 fails at `prepare()` and attempt
1 succeeds, the schedule call, failure, drain, second call, success, drain
ends with the first call rejected and the second call resolved, and with
two recorded attempts: the failed attempt cleared `readyPromise`, so the
second call started a fresh `initializeNext` instead of observing a cached
failure. -/
theorem C4_retry_after_failure (env : Nat → InitOutcome)
    (h0 : env 0 = InitOutcome.prepFail) (h1 : env 1 = InitOutcome.prepOk) :
    run env initState
      [Ev.call, Ev.prepSettles 0, Ev.micro, Ev.micro,
        Ev.call, Ev.prepSettles 1, Ev.micro, Ev.micro] =
      some { server := some 1, readyPromise := some 1,
             attempts := [{ status := AStat.rejected, waiters := [] },
                          { status := AStat.resolved, waiters := [] }],
             calls := [some false, some true], queue := [] } := by
  simp [run, step, initState, h0, h1]

/-- C4 witness: the two-phase environment `envFailThenOk` realizes the
fail-then-succeed scenario: the first call rejects, the second resolves. -/
theorem C4_retry_after_failure_witness :
    run envFailThenOk initState
      [Ev.call, Ev.prepSettles 0, Ev.micro, Ev.micro,
        Ev.call, Ev.prepSettles 1, Ev.micro, Ev.micro] =
      some { server := some 1, readyPromise := some 1,
             attempts := [{ status := AStat.rejected, waiters := [] },
                          { status := AStat.resolved, waiters := [] }],
             calls := [some false, some true], queue := [] } :=
  C4_retry_after_failure envFailThenOk (by decide) (by decide)

/-- C6 counterexample: in the state reached by a single `ensureReady` call
whose first preparation attempt is still in flight (nothing has ever
succeeded), `getRequestHandler` does not throw the uninitialized error: it
returns a handler taken from the not-yet-prepared server instance, because
`initializeNext` assigns `this.server` before awaiting `prepare()`.  This
contradicts the claim that the call fails while a first attempt is still
in flight. -/
theorem C6_counterexample :
    run envAllOk initState [Ev.call] = some sInFlight ∧
    succeededEver sInFlight = false ∧
    getRequestHandler sInFlight = Except.ok 0 :=
  ⟨by decide, by decide, rfl⟩

/-- C7 counterexample: in the same single-call state, no preparation
attempt has ever succeeded and yet the `server` field is already set (to
the unprepared instance of the in-flight attempt), contradicting the claim
that the field is absent at every observable point until an attempt
succeeds. -/
theorem C7_counterexample :
    run envAllOk initState [Ev.call] = some sInFlight ∧
    succeededEver sInFlight = false ∧
    sInFlight.server = some 0 := by
  decide

/-- C10: `getNextServer` returns the raw server instance exactly when the
internal `server` field is set, throws the error message
`Next.js was not initialized yet` exactly when it is null, and throws in
exactly the same states as `getRequestHandler`. -/
theorem C10_getNextServer_contract (s : GateState) :
    (getNextServer s = Except.error uninitializedMessage ↔ s.server = none) ∧
    (∀ k, s.server = some k → getNextServer s = Except.ok k) ∧
    (getNextServer s = Except.error uninitializedMessage ↔
      getRequestHandler s = Except.error uninitializedMessage) := by
  cases h : s.server <;> simp [getNextServer, getRequestHandler, h]

/-- C10 witness: in the in-flight state the `server` field holds instance
`0` and `getNextServer` returns it. -/
theorem C10_getNextServer_contract_witness :
    getNextServer sInFlight = Except.ok 0 :=
  (C10_getNextServer_contract sInFlight).2.1 0 rfl

/-! ### The single-flight invariant

The inductive invariant below is preserved by every scheduler step.  Its
heart is `flight_ready`: an in-flight attempt is exactly the one recorded
in `readyPromise`, which forces at most one attempt to be in flight.  The
queue facts capture why a late failure cleanup can never clear a newer
attempt: waiter continuations only ever sit in the queue when nothing is
in flight (they are enqueued contiguously when an attempt settles and are
drained before any macrotask can start a new attempt). -/

/-- Inductive invariant of the gate machine. -/
structure Inv (s : GateState) : Prop where
  flight_ready : ∀ (k : Nat) (a : AttemptRec), s.attempts[k]? = some a →
      a.inFlight = true → s.readyPromise = some k ∧ s.server = some k
  queue_shape : (∀ t ∈ s.queue, ∃ (c : Nat) (b : Bool), t = Microtask.waiterResume c b) ∨
      (∃ (k : Nat) (a : AttemptRec), s.queue = [Microtask.initResume k] ∧
        s.attempts[k]? = some a ∧ a.status = AStat.settling)
  waiter_no_flight : ∀ (c : Nat) (b : Bool), Microtask.waiterResume c b ∈ s.queue →
      ∀ (k : Nat) (a : AttemptRec), s.attempts[k]? = some a → a.inFlight = false
  server_state : ∀ (k : Nat), s.server = some k → ∃ (a : AttemptRec),
      s.attempts[k]? = some a ∧ (a.inFlight = true ∨ a.status = AStat.resolved)

theorem no_flight_of_rp_none {s : GateState} (hI : Inv s)
    (hrp : s.readyPromise = none) :
    ∀ (k : Nat) (a : AttemptRec), s.attempts[k]? = some a → a.inFlight = false := by
  intro k a hk
  cases hfl : a.inFlight with
  | false => rfl
  | true =>
    have h1 := (hI.flight_ready k a hk hfl).1
    rw [hrp] at h1
    cases h1

theorem no_flight_of_rp_settled {s : GateState} (hI : Inv s) {k : Nat}
    {a : AttemptRec} (hrp : s.readyPromise = some k)
    (hak : s.attempts[k]? = some a) (hsettled : a.inFlight = false) :
    ∀ (j : Nat) (b : AttemptRec), s.attempts[j]? = some b → b.inFlight = false := by
  intro j b hj
  cases hfl : b.inFlight with
  | false => rfl
  | true =>
    have h1 := (hI.flight_ready j b hj hfl).1
    rw [hrp] at h1
    obtain rfl : k = j := Option.some.inj h1
    rw [hak] at hj
    obtain rfl : a = b := Option.some.inj hj
    rw [hfl] at hsettled
    cases hsettled

theorem inFlight_of_status {a : AttemptRec}
    (h : a.status = AStat.prepPending ∨ a.status = AStat.settling) :
    a.inFlight = true := by
  unfold AttemptRec.inFlight
  rcases h with h | h <;> rw [h] <;> rfl

theorem not_inFlight_of_status {a : AttemptRec}
    (h : a.status = AStat.resolved ∨ a.status = AStat.rejected) :
    a.inFlight = false := by
  unfold AttemptRec.inFlight
  rcases h with h | h <;> rw [h] <;> rfl

theorem getElem?_append_one {α : Type} (l : List α) (x : α) (k : Nat) (a : α)
    (h : (l ++ [x])[k]? = some a) : l[k]? = some a ∨ (k = l.length ∧ a = x) := by
  rw [List.getElem?_append] at h
  split at h
  · exact Or.inl h
  · rename_i hk
    have hk2 : l.length ≤ k := Nat.le_of_not_lt hk
    rcases Nat.eq_or_lt_of_le hk2 with heq | hlt
    · refine Or.inr ⟨heq.symm, ?_⟩
      rw [← heq, Nat.sub_self] at h
      simpa using h.symm
    · exfalso
      have h1 : (1 : Nat) ≤ k - l.length := by omega
      have hn : ([x] : List α)[k - l.length]? = none := by
        rw [List.getElem?_eq_none_iff]
        simpa using h1
      rw [hn] at h
      cases h

/-- Preservation of the invariant by a top-level `ensureReady` call. -/
theorem inv_step_call (env : Nat → InitOutcome) (s s1 : GateState)
    (hI : Inv s) (h : step env s Ev.call = some s1) : Inv s1 := by
  have hq : s.queue = [] := by
    by_contra hq
    simp [step, hq] at h
  rcases hrp : s.readyPromise with _ | k
  · -- readyPromise is null: a fresh attempt starts
    have hnf := no_flight_of_rp_none hI hrp
    rcases henv : env s.attempts.length with _ | _ | _
    · -- next(...) returns a falsy value: attempt settles rejected at once
      simp [step, hq, hrp, henv] at h
      subst h
      refine ⟨?_, ?_, ?_, ?_⟩
      · intro j b hj hfl
        rcases getElem?_append_one _ _ _ _ hj with hold | ⟨rfl, rfl⟩
        · rw [hnf j b hold] at hfl
          cases hfl
        · cases hfl
      · left
        intro t ht
        rcases List.mem_singleton.mp ht with rfl
        exact ⟨s.calls.length, false, rfl⟩
      · intro c b hmem j b2 hj
        rcases getElem?_append_one _ _ _ _ hj with hold | ⟨rfl, rfl⟩
        · exact hnf j b2 hold
        · rfl
      · intro j hj
        cases hj
    · -- prepare() will later reject: attempt starts in flight
      simp [step, hq, hrp, henv] at h
      subst h
      refine ⟨?_, ?_, ?_, ?_⟩
      · intro j b hj hfl
        rcases getElem?_append_one _ _ _ _ hj with hold | ⟨rfl, rfl⟩
        · rw [hnf j b hold] at hfl
          cases hfl
        · exact ⟨rfl, rfl⟩
      · left
        intro t ht
        simp [hq] at ht
      · intro c b hmem
        simp [hq] at hmem
      · intro j hj
        obtain rfl : s.attempts.length = j := Option.some.inj hj
        refine ⟨{ status := AStat.prepPending, waiters := [s.calls.length] }, ?_, ?_⟩
        · simp
        · exact Or.inl rfl
    · -- prepare() will later resolve: attempt starts in flight
      simp [step, hq, hrp, henv] at h
      subst h
      refine ⟨?_, ?_, ?_, ?_⟩
      · intro j b hj hfl
        rcases getElem?_append_one _ _ _ _ hj with hold | ⟨rfl, rfl⟩
        · rw [hnf j b hold] at hfl
          cases hfl
        · exact ⟨rfl, rfl⟩
      · left
        intro t ht
        simp [hq] at ht
      · intro c b hmem
        simp [hq] at hmem
      · intro j hj
        obtain rfl : s.attempts.length = j := Option.some.inj hj
        refine ⟨{ status := AStat.prepPending, waiters := [s.calls.length] }, ?_, ?_⟩
        · simp
        · exact Or.inl rfl
  · -- readyPromise records attempt k: the call registers on it
    rcases hak : s.attempts[k]? with _ | a
    · simp [step, hq, hrp, hak] at h
    · have hklt : k < s.attempts.length := (List.getElem?_eq_some.mp hak).1
      rcases hst : a.status with _ | _ | _ | _
      · -- attempt k awaiting prepare(): join its waiters
        simp [step, hq, hrp, hak, hst] at h
        subst h
        refine ⟨?_, ?_, ?_, ?_⟩
        · intro j b hj hfl
          rw [List.getElem?_set] at hj
          by_cases hkj : k = j
          · subst hkj
            rw [if_pos rfl, if_pos hklt] at hj
            refine ⟨rfl, ?_⟩
            exact (hI.flight_ready k a hak (inFlight_of_status (Or.inl hst))).2
          · rw [if_neg hkj] at hj
            have hold := hI.flight_ready j b hj hfl
            exact ⟨hrp.symm.trans hold.1, hold.2⟩
        · left
          intro t ht
          simp [hq] at ht
        · intro c b hmem
          simp [hq] at hmem
        · intro j hj
          rcases hI.server_state j hj with ⟨b, hb, hP⟩
          by_cases hkj : k = j
          · subst hkj
            rw [hak] at hb
            obtain rfl : a = b := Option.some.inj hb
            refine ⟨{ a with waiters := a.waiters ++ [s.calls.length] }, ?_, ?_⟩
            · rw [List.getElem?_set, if_pos rfl, if_pos hklt, hst]
            · exact Or.inl (inFlight_of_status (Or.inl hst))
          · refine ⟨b, ?_, hP⟩
            rw [List.getElem?_set, if_neg hkj]
            exact hb
      · -- attempt k already settling: join its waiters
        simp [step, hq, hrp, hak, hst] at h
        subst h
        refine ⟨?_, ?_, ?_, ?_⟩
        · intro j b hj hfl
          rw [List.getElem?_set] at hj
          by_cases hkj : k = j
          · subst hkj
            rw [if_pos rfl, if_pos hklt] at hj
            refine ⟨rfl, ?_⟩
            exact (hI.flight_ready k a hak (inFlight_of_status (Or.inr hst))).2
          · rw [if_neg hkj] at hj
            have hold := hI.flight_ready j b hj hfl
            exact ⟨hrp.symm.trans hold.1, hold.2⟩
        · left
          intro t ht
          simp [hq] at ht
        · intro c b hmem
          simp [hq] at hmem
        · intro j hj
          rcases hI.server_state j hj with ⟨b, hb, hP⟩
          by_cases hkj : k = j
          · subst hkj
            rw [hak] at hb
            obtain rfl : a = b := Option.some.inj hb
            refine ⟨{ a with waiters := a.waiters ++ [s.calls.length] }, ?_, ?_⟩
            · rw [List.getElem?_set, if_pos rfl, if_pos hklt, hst]
            · exact Or.inl (inFlight_of_status (Or.inr hst))
          · refine ⟨b, ?_, hP⟩
            rw [List.getElem?_set, if_neg hkj]
            exact hb
      · -- attempt k already resolved: react immediately with success
        have hnf := no_flight_of_rp_settled hI hrp hak
          (not_inFlight_of_status (Or.inl hst))
        simp [step, hq, hrp, hak, hst] at h
        subst h
        refine ⟨?_, ?_, ?_, ?_⟩
        · intro j b hj hfl
          rw [hnf j b hj] at hfl
          cases hfl
        · left
          intro t ht
          rcases List.mem_singleton.mp ht with rfl
          exact ⟨s.calls.length, true, rfl⟩
        · intro c b hmem j b2 hj
          exact hnf j b2 hj
        · exact hI.server_state
      · -- attempt k already rejected: react immediately with failure
        have hnf := no_flight_of_rp_settled hI hrp hak
          (not_inFlight_of_status (Or.inr hst))
        simp [step, hq, hrp, hak, hst] at h
        subst h
        refine ⟨?_, ?_, ?_, ?_⟩
        · intro j b hj hfl
          rw [hnf j b hj] at hfl
          cases hfl
        · left
          intro t ht
          rcases List.mem_singleton.mp ht with rfl
          exact ⟨s.calls.length, false, rfl⟩
        · intro c b hmem j b2 hj
          exact hnf j b2 hj
        · exact hI.server_state

/-- Preservation of the invariant by the settlement of the `prepare()`
I/O of attempt `k`. -/
theorem inv_step_prep (env : Nat → InitOutcome) (s s1 : GateState) (k : Nat)
    (hI : Inv s) (h : step env s (Ev.prepSettles k) = some s1) : Inv s1 := by
  have hq : s.queue = [] := by
    by_contra hq
    simp [step, hq] at h
  rcases hak : s.attempts[k]? with _ | a
  · simp [step, hq, hak] at h
  · have hklt : k < s.attempts.length := (List.getElem?_eq_some.mp hak).1
    rcases hst : a.status with _ | _ | _ | _
    · simp [step, hq, hak, hst] at h
      subst h
      refine ⟨?_, ?_, ?_, ?_⟩
      · intro j b hj hfl
        rw [List.getElem?_set] at hj
        by_cases hkj : k = j
        · subst hkj
          exact hI.flight_ready k a hak (inFlight_of_status (Or.inl hst))
        · rw [if_neg hkj] at hj
          exact hI.flight_ready j b hj hfl
      · right
        refine ⟨k, { a with status := AStat.settling }, rfl, ?_, rfl⟩
        rw [List.getElem?_set, if_pos rfl, if_pos hklt]
      · intro c b hmem
        simp at hmem
      · intro j hj
        rcases hI.server_state j hj with ⟨b, hb, hP⟩
        by_cases hkj : k = j
        · subst hkj
          refine ⟨{ a with status := AStat.settling }, ?_, ?_⟩
          · rw [List.getElem?_set, if_pos rfl, if_pos hklt]
          · exact Or.inl (inFlight_of_status (Or.inr rfl))
        · refine ⟨b, ?_, hP⟩
          rw [List.getElem?_set, if_neg hkj]
          exact hb
    · simp [step, hq, hak, hst] at h
    · simp [step, hq, hak, hst] at h
    · simp [step, hq, hak, hst] at h

/-- The state after the settlement continuation of a failing attempt `k`
(the `catch` block of `initializeNext` nulls `server`, the attempt promise
rejects, and the waiter continuations are enqueued) satisfies the
invariant. -/
theorem inv_after_settle_fail (s : GateState) (k : Nat) (a : AttemptRec)
    (hI : Inv s) (hak : s.attempts[k]? = some a) (hklt : k < s.attempts.length)
    (hst2 : a.status = AStat.settling) :
    Inv { s with
          server := none,
          attempts := s.attempts.set k { status := AStat.rejected, waiters := [] },
          queue := a.waiters.map (fun c => Microtask.waiterResume c false) } := by
  have hnf1 : ∀ (j : Nat) (b : AttemptRec),
      (s.attempts.set k { status := AStat.rejected, waiters := [] })[j]? =
        some b → b.inFlight = false := by
    intro j b hj
    rw [List.getElem?_set] at hj
    by_cases hkj : k = j
    · rw [if_pos hkj, if_pos hklt] at hj
      obtain rfl : { status := AStat.rejected, waiters := [] } = b :=
        Option.some.inj hj
      exact not_inFlight_of_status (Or.inr rfl)
    · rw [if_neg hkj] at hj
      cases hfl : b.inFlight with
      | false => rfl
      | true =>
        exfalso
        have h1 := (hI.flight_ready j b hj hfl).1
        have h2 := (hI.flight_ready k a hak (inFlight_of_status (Or.inr hst2))).1
        rw [h2] at h1
        exact hkj (Option.some.inj h1)
  refine ⟨?_, ?_, ?_, ?_⟩
  · intro j b hj hfl
    rw [hnf1 j b hj] at hfl
    cases hfl
  · left
    intro t2 ht2
    rcases List.mem_map.mp ht2 with ⟨c2, hc2, rfl⟩
    exact ⟨c2, false, rfl⟩
  · intro c2 b2 hmem j b3 hj
    exact hnf1 j b3 hj
  · intro j hj
    cases hj

/-- Preservation of the invariant by processing one microtask. -/
theorem inv_step_micro (env : Nat → InitOutcome) (s s1 : GateState)
    (hI : Inv s) (h : step env s Ev.micro = some s1) : Inv s1 := by
  rcases hqe : s.queue with _ | ⟨t, rest⟩
  · simp [step, hqe] at h
  · rcases t with k | ⟨c, ok⟩
    · -- the settlement continuation of initializeNext for attempt k
      rcases hak : s.attempts[k]? with _ | a
      · simp [step, hqe, hak] at h
      · have hklt : k < s.attempts.length := (List.getElem?_eq_some.mp hak).1
        have hsettling : a.status = AStat.settling ∧ rest = [] := by
          rcases hI.queue_shape with hall | ⟨k2, a2, hqq, hak2, hst2⟩
          · exfalso
            rcases hall (Microtask.initResume k)
              (by rw [hqe]; exact List.mem_cons_self _ _) with ⟨c2, b2, hcb⟩
            cases hcb
          · rw [hqe] at hqq
            injection hqq with h1 h2
            injection h1 with h1
            subst h1
            rw [hak] at hak2
            obtain rfl : a2 = a := Option.some.inj hak2.symm
            exact ⟨hst2, h2⟩
        obtain ⟨hst2, hrest⟩ := hsettling
        subst hrest
        rcases henv : env k with _ | _ | _
        · -- rejection branch of the match (ctorNull, unreachable here)
          simp [step, hqe, hak, henv] at h
          subst h
          exact inv_after_settle_fail s k a hI hak hklt hst2
        · simp [step, hqe, hak, henv] at h
          subst h
          exact inv_after_settle_fail s k a hI hak hklt hst2
        · -- success branch
          simp [step, hqe, hak, henv] at h
          subst h
          have hnf1 : ∀ (j : Nat) (b : AttemptRec),
              (s.attempts.set k { status := AStat.resolved, waiters := [] })[j]? =
                some b → b.inFlight = false := by
            intro j b hj
            rw [List.getElem?_set] at hj
            by_cases hkj : k = j
            · rw [if_pos hkj, if_pos hklt] at hj
              obtain rfl : { status := AStat.resolved, waiters := [] } = b :=
                Option.some.inj hj
              exact not_inFlight_of_status (Or.inl rfl)
            · rw [if_neg hkj] at hj
              cases hfl : b.inFlight with
              | false => rfl
              | true =>
                exfalso
                have h1 := (hI.flight_ready j b hj hfl).1
                have h2 := (hI.flight_ready k a hak
                  (inFlight_of_status (Or.inr hst2))).1
                rw [h2] at h1
                exact hkj (Option.some.inj h1)
          refine ⟨?_, ?_, ?_, ?_⟩
          · intro j b hj hfl
            rw [hnf1 j b hj] at hfl
            cases hfl
          · left
            intro t2 ht2
            simp only [List.nil_append] at ht2
            rcases List.mem_map.mp ht2 with ⟨c2, hc2, rfl⟩
            exact ⟨c2, true, rfl⟩
          · intro c2 b2 hmem j b3 hj
            exact hnf1 j b3 hj
          · intro j hj
            rcases hI.server_state j hj with ⟨b, hb, hP⟩
            by_cases hkj : k = j
            · subst hkj
              refine ⟨{ status := AStat.resolved, waiters := [] }, ?_, Or.inr rfl⟩
              rw [List.getElem?_set, if_pos rfl, if_pos hklt]
            · refine ⟨b, ?_, hP⟩
              rw [List.getElem?_set, if_neg hkj]
              exact hb
    · -- the continuation of an ensureReady call whose attempt settled
      have hwmem : Microtask.waiterResume c ok ∈ s.queue := by
        rw [hqe]
        exact List.mem_cons_self _ _
      have hrest : ∀ t2 ∈ rest, t2 ∈ s.queue := by
        intro t2 ht2
        rw [hqe]
        exact List.mem_cons_of_mem _ ht2
      have hnof := hI.waiter_no_flight c ok hwmem
      cases ok
      · simp [step, hqe] at h
        subst h
        refine ⟨?_, ?_, ?_, ?_⟩
        · intro j b hj hfl
          rw [hnof j b hj] at hfl
          cases hfl
        · left
          intro t2 ht2
          rcases hI.queue_shape with hall | ⟨k2, a2, hqq, hak2, hst2⟩
          · exact hall t2 (hrest t2 ht2)
          · exfalso
            rw [hqe] at hqq
            injection hqq with h1 h2
            cases h1
        · intro c2 b2 hmem j b3 hj
          exact hnof j b3 hj
        · exact hI.server_state
      · simp [step, hqe] at h
        subst h
        refine ⟨?_, ?_, ?_, ?_⟩
        · intro j b hj hfl
          rw [hnof j b hj] at hfl
          cases hfl
        · left
          intro t2 ht2
          rcases hI.queue_shape with hall | ⟨k2, a2, hqq, hak2, hst2⟩
          · exact hall t2 (hrest t2 ht2)
          · exfalso
            rw [hqe] at hqq
            injection hqq with h1 h2
            cases h1
        · intro c2 b2 hmem j b3 hj
          exact hnof j b3 hj
        · exact hI.server_state

/-- Preservation of the invariant by any scheduler step. -/
theorem inv_step (env : Nat → InitOutcome) (s s1 : GateState) (e : Ev)
    (hI : Inv s) (h : step env s e = some s1) : Inv s1 := by
  cases e with
  | call => exact inv_step_call env s s1 hI h
  | prepSettles k => exact inv_step_prep env s s1 k hI h
  | micro => exact inv_step_micro env s s1 hI h

/-- The invariant holds along every valid schedule. -/
theorem inv_run (env : Nat → InitOutcome) :
    ∀ (evs : List Ev) (s s1 : GateState), Inv s →
      run env s evs = some s1 → Inv s1
  | [], s, s1, hI, h => by
    simp [run] at h
    exact h ▸ hI
  | e :: evs, s, s1, hI, h => by
    rcases hstep : step env s e with _ | s2
    · simp [run, hstep] at h
    · exact inv_run env evs s2 s1 (inv_step env s s2 e hI hstep)
        (by simpa [run, hstep] using h)

/-- The invariant holds at process start. -/
theorem inv_initState : Inv initState := by
  refine ⟨?_, ?_, ?_, ?_⟩
  · intro k a hk
    simp [initState] at hk
  · left
    intro t ht
    simp [initState] at ht
  · intro c b hmem
    simp [initState] at hmem
  · intro j hj
    simp [initState] at hj

/-- If every index whose element satisfies `p` equals a fixed `r`, then at
most one element of the list satisfies `p`. -/
theorem countP_le_one_of_unique {α : Type} (p : α → Bool) :
    ∀ (l : List α) (r : Nat),
      (∀ (k : Nat) (a : α), l[k]? = some a → p a = true → k = r) →
      l.countP p ≤ 1
  | [], _, _ => by simp
  | x :: xs, r, h => by
    rw [List.countP_cons]
    cases hx : p x with
    | false =>
      simp only [Bool.false_eq_true, if_false, Nat.add_zero]
      cases r with
      | zero =>
        have h0 : xs.countP p = 0 := by
          rw [List.countP_eq_zero]
          intro a ha hpa
          rcases List.mem_iff_getElem?.mp ha with ⟨i, hi⟩
          have := h (i + 1) a (by simpa using hi) hpa
          omega
        omega
      | succ r2 =>
        exact countP_le_one_of_unique p xs r2 (fun k a hk hp => by
          have := h (k + 1) a (by simpa using hk) hp
          omega)
    | true =>
      have h0 : xs.countP p = 0 := by
        rw [List.countP_eq_zero]
        intro a ha hpa
        rcases List.mem_iff_getElem?.mp ha with ⟨i, hi⟩
        have hi1 := h (i + 1) a (by simpa using hi) hpa
        have hi0 := h 0 x (by simp) hx
        omega
      simp [h0]

/-- C5: at most one execution of `initializeNext` is in flight in every
state reachable by any valid schedule of calls, `prepare()` settlements
and microtasks.  The interleaving feared by the claim, in which a stale
failure cleanup of an old attempt runs after a new attempt has started and
enables a second concurrent preparation, is unreachable: the cleanup
continuations of a failed attempt all run in one microtask drain, before
any macrotask can start a new attempt. -/
theorem C5_single_flight (env : Nat → InitOutcome) (evs : List Ev)
    (s : GateState) (h : run env initState evs = some s) :
    inFlightCount s ≤ 1 := by
  have hI := inv_run env evs initState s inv_initState h
  unfold inFlightCount
  rcases hrp : s.readyPromise with _ | r
  · have h0 : s.attempts.countP (fun a => a.inFlight) = 0 := by
      rw [List.countP_eq_zero]
      intro a ha
      rcases List.mem_iff_getElem?.mp ha with ⟨i, hi⟩
      have := no_flight_of_rp_none hI hrp i a hi
      simp [this]
    omega
  · apply countP_le_one_of_unique (fun a => a.inFlight) s.attempts r
    intro k a hk hp
    have h1 := (hI.flight_ready k a hk hp).1
    rw [hrp] at h1
    exact (Option.some.inj h1).symm

/-- C5 witness: the state reached by one call, one settlement and a full
drain in the all-success environment has at most one attempt in flight. -/
theorem C5_single_flight_witness :
    inFlightCount
      { server := some 0, readyPromise := some 0,
        attempts := [{ status := AStat.resolved, waiters := [] }],
        calls := [some true], queue := [] } ≤ 1 :=
  C5_single_flight envAllOk [Ev.call, Ev.prepSettles 0, Ev.micro, Ev.micro]
    { server := some 0, readyPromise := some 0,
      attempts := [{ status := AStat.resolved, waiters := [] }],
      calls := [some true], queue := [] } (by decide)

/-- In a quiescent state (no attempt in flight) in which no attempt has
ever succeeded, the `server` field is null. -/
theorem server_none_of_quiescent {s : GateState} (hI : Inv s)
    (hcount : inFlightCount s = 0) (hsucc : succeededEver s = false) :
    s.server = none := by
  rcases hsv : s.server with _ | k
  · rfl
  · exfalso
    rcases hI.server_state k hsv with ⟨a, hak, hP⟩
    have ham : a ∈ s.attempts := List.mem_iff_getElem?.mpr ⟨k, hak⟩
    rcases hP with hfl | hres
    · unfold inFlightCount at hcount
      rw [List.countP_eq_zero] at hcount
      have := hcount a ham
      simp [hfl] at this
    · unfold succeededEver at hsucc
      rw [List.any_eq_false] at hsucc
      have := hsucc a ham
      rw [hres] at this
      simp at this

/-- C6 amended: `getRequestHandler` throws the error
`Next.js was not initialized yet` exactly when the `server` field is null;
that is guaranteed before any attempt has started and after a failed
attempt has run its cleanup (no attempt in flight, none ever resolved) —
but while an attempt is in flight the field is already set, so the call
returns a handler of the not-yet-prepared instance instead of failing. -/
theorem C6_amended_handler_contract (env : Nat → InitOutcome) (evs : List Ev)
    (s : GateState) (h : run env initState evs = some s) :
    ((getRequestHandler s = Except.error uninitializedMessage) ↔
      s.server = none) ∧
    ((inFlightCount s = 0 ∧ succeededEver s = false) →
      getRequestHandler s = Except.error uninitializedMessage) ∧
    (∀ (k : Nat) (a : AttemptRec), s.attempts[k]? = some a →
      a.inFlight = true → getRequestHandler s = Except.ok k) := by
  have hI := inv_run env evs initState s inv_initState h
  refine ⟨?_, ?_, ?_⟩
  · cases hsv : s.server <;> simp [getRequestHandler, hsv]
  · rintro ⟨hcount, hsucc⟩
    have hsv := server_none_of_quiescent hI hcount hsucc
    simp [getRequestHandler, hsv]
  · intro k a hak hfl
    have hsv := (hI.flight_ready k a hak hfl).2
    simp [getRequestHandler, hsv]

/-- C6 amended witness: in the single-call in-flight state the handler is
returned (from the unprepared instance `0`) instead of an error. -/
theorem C6_amended_handler_contract_witness :
    getRequestHandler sInFlight = Except.ok 0 :=
  (C6_amended_handler_contract envAllOk [Ev.call] sInFlight (by decide)).2.2 0
    { status := AStat.prepPending, waiters := [0] } (by decide) (by decide)

/-- C7 amended: in every reachable state the `server` field, when set,
points at an attempt that is either still in flight or has resolved — so a
failed attempt never leaves the handle set (its `catch` block nulls the
field before the failure propagates); but the handle is already set while
an attempt is in flight, before any success.  When nothing is in flight
and nothing has ever succeeded — in particular after a failure has fully
propagated — the handle is absent. -/
theorem C7_amended_server_lifecycle (env : Nat → InitOutcome) (evs : List Ev)
    (s : GateState) (h : run env initState evs = some s) :
    (∀ (k : Nat), s.server = some k → ∃ (a : AttemptRec),
      s.attempts[k]? = some a ∧
      (a.inFlight = true ∨ a.status = AStat.resolved)) ∧
    ((inFlightCount s = 0 ∧ succeededEver s = false) → s.server = none) := by
  have hI := inv_run env evs initState s inv_initState h
  exact ⟨hI.server_state, fun hq => server_none_of_quiescent hI hq.1 hq.2⟩

/-- C7 amended witness: after a failed attempt has fully propagated, the
`server` field is null again. -/
theorem C7_amended_server_lifecycle_witness :
    GateState.server
      { server := none, readyPromise := none,
        attempts := [{ status := AStat.rejected, waiters := [] }],
        calls := [some false], queue := [] } = none :=
  (C7_amended_server_lifecycle envFailThenOk
    [Ev.call, Ev.prepSettles 0, Ev.micro, Ev.micro]
    { server := none, readyPromise := none,
      attempts := [{ status := AStat.rejected, waiters := [] }],
      calls := [some false], queue := [] } (by decide)).2 ⟨by decide, by decide⟩

/-! ### N concurrent calls share one attempt

The lemmas below compute the run of the canonical schedule in which N
`ensureReady` calls arrive while the first attempt is still awaiting its
`prepare()` I/O.  In the machine these are exactly the schedules in which
all N calls are concurrent: once the attempt starts settling, the
microtask queue is non-empty and no further call can run until the drain
is complete. -/

/-- The list `[s, s+1, ..., s+n-1]` of consecutive naturals. -/
def consecFrom : Nat → Nat → List Nat
  | _, 0 => []
  | s, n + 1 => s :: consecFrom (s + 1) n

theorem consecFrom_length : ∀ (s n : Nat), (consecFrom s n).length = n
  | _, 0 => rfl
  | s, n + 1 => by
    rw [consecFrom, List.length_cons, consecFrom_length (s + 1) n]

theorem consecFrom_append_one : ∀ (s n : Nat),
    consecFrom s n ++ [s + n] = consecFrom s (n + 1)
  | s, 0 => by simp [consecFrom]
  | s, n + 1 => by
    rw [consecFrom, consecFrom, List.cons_append]
    have h1 : s + (n + 1) = (s + 1) + n := by omega
    rw [h1, consecFrom_append_one (s + 1) n]

/-- Setting the element just past a prefix. -/
theorem set_append_len {α : Type} (pre : List α) (x y : α) (suf : List α) :
    (pre ++ x :: suf).set pre.length y = pre ++ y :: suf := by
  induction pre with
  | nil => rfl
  | cons p ps ih =>
    rw [List.cons_append, List.length_cons, List.set_cons_succ, ih,
      List.cons_append]

theorem foldl_set_consec (b : Bool) : ∀ (n : Nat) (pre : List (Option Bool)),
    (consecFrom pre.length n).foldl (fun cs c => cs.set c (some b))
      (pre ++ List.replicate n none) =
    pre ++ List.replicate n (some b) := by
  intro n
  induction n with
  | zero => intro pre; simp [consecFrom]
  | succ n2 ih =>
    intro pre
    rw [consecFrom, List.replicate_succ, List.foldl_cons,
      set_append_len pre none (some b) (List.replicate n2 none)]
    have h1 : pre ++ some b :: List.replicate n2 (none : Option Bool) =
        (pre ++ [some b]) ++ List.replicate n2 none := by
      simp
    have h2 : pre.length + 1 = (pre ++ [some b]).length := by
      simp
    rw [h1, h2, ih (pre ++ [some b])]
    simp [List.replicate_succ]

/-- Composition of schedules. -/
theorem run_append (env : Nat → InitOutcome) (evs1 evs2 : List Ev) :
    ∀ (s : GateState), run env s (evs1 ++ evs2) =
      (run env s evs1).bind (fun s2 => run env s2 evs2) := by
  induction evs1 with
  | nil => intro s; simp [run]
  | cons e evs ih =>
    intro s
    rw [List.cons_append]
    rcases hstep : step env s e with _ | s2
    · simp [run, hstep]
    · simp [run, hstep, ih s2]

/-- The state after `m` concurrent calls have joined attempt 0, which is
still awaiting `prepare()`. -/
def midState (m : Nat) : GateState :=
  { server := some 0, readyPromise := some 0,
    attempts := [{ status := AStat.prepPending, waiters := consecFrom 0 m }],
    calls := List.replicate m none, queue := [] }

/-- The same state once the `prepare()` I/O of attempt 0 has finished and
its settlement continuation is queued. -/
def settlingState (m : Nat) : GateState :=
  { server := some 0, readyPromise := some 0,
    attempts := [{ status := AStat.settling, waiters := consecFrom 0 m }],
    calls := List.replicate m none, queue := [Microtask.initResume 0] }

theorem step_call_initState (env : Nat → InitOutcome)
    (hc : env 0 ≠ InitOutcome.ctorNull) :
    step env initState Ev.call = some (midState 1) := by
  rcases henv : env 0 with _ | _ | _
  · exact absurd henv hc
  · simp [step, initState, henv, midState]
    rfl
  · simp [step, initState, henv, midState]
    rfl

theorem step_call_mid (env : Nat → InitOutcome) (m : Nat) :
    step env (midState m) Ev.call = some (midState (m + 1)) := by
  simp [step, midState]
  constructor
  · have h1 := consecFrom_append_one 0 m
    simpa using h1
  · rw [List.replicate_add]
    rfl

theorem run_calls (env : Nat → InitOutcome) :
    ∀ (m j : Nat), run env (midState j) (List.replicate m Ev.call) =
      some (midState (j + m)) := by
  intro m
  induction m with
  | zero => intro j; simp [run]
  | succ n ih =>
    intro j
    rw [List.replicate_succ]
    simp [run, step_call_mid env j]
    rw [ih (j + 1)]
    have h1 : j + 1 + n = j + (n + 1) := by omega
    rw [h1]

theorem step_prep_mid (env : Nat → InitOutcome) (m : Nat) :
    step env (midState m) (Ev.prepSettles 0) = some (settlingState m) := by
  simp [step, midState, settlingState]

theorem step_settle_ok (env : Nat → InitOutcome) (m : Nat)
    (henv : env 0 = InitOutcome.prepOk) :
    step env (settlingState m) Ev.micro =
      some { server := some 0, readyPromise := some 0,
             attempts := [{ status := AStat.resolved, waiters := [] }],
             calls := List.replicate m none,
             queue := (consecFrom 0 m).map
               (fun c => Microtask.waiterResume c true) } := by
  simp [step, settlingState, henv]

theorem step_settle_fail (env : Nat → InitOutcome) (m : Nat)
    (henv : env 0 = InitOutcome.prepFail) :
    step env (settlingState m) Ev.micro =
      some { server := none, readyPromise := some 0,
             attempts := [{ status := AStat.rejected, waiters := [] }],
             calls := List.replicate m none,
             queue := (consecFrom 0 m).map
               (fun c => Microtask.waiterResume c false) } := by
  simp [step, settlingState, henv]

/-- Draining a queue of waiter continuations settles each recorded call in
order; on success `readyPromise` is kept, on failure each cleanup clears
it. -/
theorem run_drain (env : Nat → InitOutcome) (b : Bool) :
    ∀ (ws : List Nat) (srv rp : Option Nat) (atts : List AttemptRec)
      (cs : List (Option Bool)),
      run env
        { server := srv, readyPromise := rp, attempts := atts, calls := cs,
          queue := ws.map (fun c => Microtask.waiterResume c b) }
        (List.replicate ws.length Ev.micro) =
      some { server := srv,
             readyPromise := if ws.isEmpty then rp else if b then rp else none,
             attempts := atts,
             calls := ws.foldl (fun cs2 c => cs2.set c (some b)) cs,
             queue := [] } := by
  intro ws
  induction ws with
  | nil =>
    intro srv rp atts cs
    simp [run]
  | cons w ws2 ih =>
    intro srv rp atts cs
    rw [List.length_cons, List.replicate_succ, List.map_cons]
    cases b
    · simp [run, step]
      rw [ih srv none atts (cs.set w (some false))]
      simp [List.foldl_cons]
    · simp [run, step]
      rw [ih srv rp atts (cs.set w (some true))]
      simp [List.foldl_cons]

/-- Variant of `run_drain` with the schedule length given separately. -/
theorem run_drain_count (env : Nat → InitOutcome) (b : Bool) (ws : List Nat)
    (srv rp : Option Nat) (atts : List AttemptRec) (cs : List (Option Bool))
    (mc : Nat) (hmc : mc = ws.length) :
    run env
      { server := srv, readyPromise := rp, attempts := atts, calls := cs,
        queue := ws.map (fun c => Microtask.waiterResume c b) }
      (List.replicate mc Ev.micro) =
    some { server := srv,
           readyPromise := if ws.isEmpty then rp else if b then rp else none,
           attempts := atts,
           calls := ws.foldl (fun cs2 c => cs2.set c (some b)) cs,
           queue := [] } := by
  subst hmc
  exact run_drain env b ws srv rp atts cs

/-- One unfolding of `run` along an enabled step. -/
theorem run_cons (env : Nat → InitOutcome) (s s2 : GateState) (e : Ev)
    (evs : List Ev) (h : step env s e = some s2) :
    run env s (e :: evs) = run env s2 evs := by
  simp [run, h]

/-- Canonical schedule of `N` concurrent `ensureReady` calls: all `N`
calls arrive while attempt 0 is awaiting its `prepare()` I/O, then that
I/O settles and the microtask queue drains (the settlement continuation
plus one continuation per waiting call).  These are the only schedules
with `N` concurrent calls: while the microtask queue is non-empty no
macrotask can run, so no call can arrive between the settlement and the
end of the drain. -/
def C3sched (N : Nat) : List Ev :=
  List.replicate N Ev.call ++
    Ev.prepSettles 0 :: List.replicate (N + 1) Ev.micro

/-- Final state of the canonical concurrent schedule: a single recorded
attempt, and every call settled with that attempt's outcome. -/
def C3final (env : Nat → InitOutcome) (N : Nat) : GateState :=
  if env 0 = InitOutcome.prepOk then
    { server := some 0, readyPromise := some 0,
      attempts := [{ status := AStat.resolved, waiters := [] }],
      calls := List.replicate N (some true), queue := [] }
  else
    { server := none, readyPromise := none,
      attempts := [{ status := AStat.rejected, waiters := [] }],
      calls := List.replicate N (some false), queue := [] }

/-- C3: for every `N ≥ 1`, when `N` `ensureReady` calls are issued
concurrently before any preparation has ever succeeded (the canonical
schedule `C3sched N`; the attempt does not fail synchronously in the
constructor), `initializeNext` executes exactly once — the final state
records exactly one attempt — and all `N` calls settle together with the
same outcome: all resolved if `prepare()` resolved, all rejected if it
rejected. -/
theorem C3_concurrent_calls_share_one_attempt (env : Nat → InitOutcome)
    (N : Nat) (hN : 1 ≤ N) (hc : env 0 ≠ InitOutcome.ctorNull) :
    run env initState (C3sched N) = some (C3final env N) ∧
    (C3final env N).attempts.length = 1 ∧
    (C3final env N).calls =
      List.replicate N (some (decide (env 0 = InitOutcome.prepOk))) := by
  obtain ⟨n, rfl⟩ : ∃ n, N = n + 1 := ⟨N - 1, by omega⟩
  have hA : run env initState (List.replicate (n + 1) Ev.call) =
      some (midState (n + 1)) := by
    rw [List.replicate_succ]
    rw [run_cons env _ _ _ _ (step_call_initState env hc)]
    rw [run_calls env n 1]
    have h1 : 1 + n = n + 1 := by omega
    rw [h1]
  have hB : run env (midState (n + 1))
      (Ev.prepSettles 0 :: List.replicate (n + 1 + 1) Ev.micro) =
      some (C3final env (n + 1)) := by
    rw [run_cons env _ _ _ _ (step_prep_mid env (n + 1))]
    rw [List.replicate_succ]
    rcases henv : env 0 with _ | _ | _
    · exact absurd henv hc
    · rw [run_cons env _ _ _ _ (step_settle_fail env (n + 1) henv)]
      have hfold := foldl_set_consec false (n + 1) ([] : List (Option Bool))
      simp only [List.length_nil, List.nil_append] at hfold
      rw [run_drain_count env false (consecFrom 0 (n + 1)) none (some 0)
        [{ status := AStat.rejected, waiters := [] }]
        (List.replicate (n + 1) none) (n + 1) (consecFrom_length 0 (n + 1)).symm]
      rw [hfold]
      simp [C3final, henv, consecFrom]
    · rw [run_cons env _ _ _ _ (step_settle_ok env (n + 1) henv)]
      have hfold := foldl_set_consec true (n + 1) ([] : List (Option Bool))
      simp only [List.length_nil, List.nil_append] at hfold
      rw [run_drain_count env true (consecFrom 0 (n + 1)) (some 0) (some 0)
        [{ status := AStat.resolved, waiters := [] }]
        (List.replicate (n + 1) none) (n + 1) (consecFrom_length 0 (n + 1)).symm]
      rw [hfold]
      simp [C3final, henv, consecFrom]
  refine ⟨?_, ?_, ?_⟩
  · rw [C3sched, run_append env _ _ initState, hA]
    rw [Option.some_bind]
    exact hB
  · by_cases henv : env 0 = InitOutcome.prepOk <;> simp [C3final, henv]
  · by_cases henv : env 0 = InitOutcome.prepOk <;> simp [C3final, henv]

/-- C3 witness: three concurrent calls in the all-success environment end
with one recorded attempt and three calls resolved together. -/
theorem C3_concurrent_calls_share_one_attempt_witness :
    run envAllOk initState (C3sched 3) = some (C3final envAllOk 3) ∧
    (C3final envAllOk 3).attempts.length = 1 ∧
    (C3final envAllOk 3).calls =
      List.replicate 3 (some (decide (envAllOk 0 = InitOutcome.prepOk))) :=
  C3_concurrent_calls_share_one_attempt envAllOk 3 (by decide) (by decide)

end NestNext
